import Mathlib

/-!
Verification of the framing, fragmentation and reassembly engine of the
RNS-over-Meshtastic bridge (`MeshtasticInterface.py`).

Bytes are modelled as natural numbers (wire bytes are values `< 256`), byte
strings as `List Nat`.  The mutable receive buffer (`self._recvbuf`), the
in-progress fragment list (`self._recv_partial_msg`) and the online flag are
passed explicitly.  Machine arithmetic on the two length-header bytes is kept
exactly as written in the source (`>> 8`, `& 0xFF`, `<< 8 |`).
-/

namespace MeshBridge

/-- Source constant `MT_MAGIC_0 = 0x94`. -/
def MT_MAGIC_0 : Nat := 0x94

/-- Source constant `MT_MAGIC_1 = 0xc3`. -/
def MT_MAGIC_1 : Nat := 0xc3

/-- Source constant `MESH_DEST_ADDR = 0xFFFFFFFF` (broadcast). -/
def MESH_DEST_ADDR : Nat := 0xFFFFFFFF

/-- Modelled from the spec: the external constant
`meshtastic.protobuf.mesh_pb2.Constants.DATA_PAYLOAD_LEN` (the mesh hardware
payload limit, 237 bytes), which lives in the external meshtastic library,
not in this repository. -/
def DATA_PAYLOAD_LEN : Nat := 237

/-- Modelled from the spec: the external constant
`meshtastic.protobuf.portnums_pb2.PRIVATE_APP = 256`, the application port
number the bridge uses as its port base (`self.mesh_port_num`). -/
def PRIVATE_APP : Nat := 256

/-- Decoded submessage of a Meshtastic `MeshPacket`: the application port
number and the application payload bytes. -/
structure DecodedData where
  portnum : Nat
  payload : List Nat
deriving Repr, DecidableEq

/-- Logical fields of a Meshtastic `MeshPacket` that the bridge sets or
reads.  A `decoded := none` models a protobuf packet whose `decoded`
submessage is unset, i.e. `packet.HasField('decoded')` is false.  The `id`
field of the source is called `pid` here. -/
structure MeshPacket where
  dest : Nat
  pid : Nat
  channel : Nat
  want_ack : Bool
  decoded : Option DecodedData
deriving Repr, DecidableEq

/-- Protobuf default `MeshPacket` (all fields unset), as produced by
`FromRadio.FromString(buf).packet` when `buf` does not populate the `packet`
field. -/
def defaultMeshPacket : MeshPacket :=
  { dest := 0, pid := 0, channel := 0, want_ack := false, decoded := none }

/-- Little-endian base-256 digits of a natural number (empty for zero);
building block of the modelled inner codec. -/
def natDigits (n : Nat) : List Nat :=
  if h : n = 0 then [] else n % 256 :: natDigits (n / 256)
termination_by n
decreasing_by exact Nat.div_lt_self (Nat.pos_of_ne_zero h) (by norm_num)

/-- Value of a little-endian base-256 digit list. -/
def fromDigits : List Nat → Nat
  | [] => 0
  | d :: ds => d + 256 * fromDigits ds

/-- Length-prefixed base-256 encoding of a natural number. -/
def encNat (n : Nat) : List Nat :=
  (natDigits n).length :: natDigits n

/-- Reads back one `encNat`-encoded number, returning it with the remaining
bytes. -/
def parseNat : List Nat → Option (Nat × List Nat)
  | [] => none
  | c :: rest =>
    if rest.length < c then none
    else some (fromDigits (rest.take c), rest.drop c)

/-- Modelled from the spec: the external protobuf codec for the inner logical
packet (`ToRadio(packet=...).SerializeToString()` on the sending side), which
belongs to the external meshtastic protobuf library, not to this repository.
The spec treats the inner byte layout as an externally owned schema the
engine only populates logical fields of, so this is a concrete executable
stand-in codec covering exactly those fields. -/
def serializeMeshPacket (p : MeshPacket) : List Nat :=
  encNat p.dest ++ encNat p.pid ++ encNat p.channel ++
    [if p.want_ack then 1 else 0] ++
    (match p.decoded with
     | none => [0]
     | some d => 1 :: (encNat d.portnum ++ encNat d.payload.length ++ d.payload))

/-- Modelled from the spec: the inverse direction of the external codec
(`FromRadio.FromString(packet_buf)` in the source), for the stand-in byte
layout of `serializeMeshPacket`. -/
def parseMeshPacket (bs : List Nat) : Option MeshPacket :=
  match parseNat bs with
  | none => none
  | some (dest, bs1) =>
    match parseNat bs1 with
    | none => none
    | some (pid, bs2) =>
      match parseNat bs2 with
      | none => none
      | some (chan, bs3) =>
        match bs3 with
        | [] => none
        | w :: bs4 =>
          match bs4 with
          | [] => none
          | 0 :: _ =>
            some { dest := dest, pid := pid, channel := chan,
                   want_ack := w == 1, decoded := none }
          | _ :: bs5 =>
            match parseNat bs5 with
            | none => none
            | some (pn, bs6) =>
              match parseNat bs6 with
              | none => none
              | some (plen, bs7) =>
                if plen ≤ bs7.length then
                  some { dest := dest, pid := pid, channel := chan,
                         want_ack := w == 1,
                         decoded := some { portnum := pn, payload := bs7.take plen } }
                else none

/-- Packet extracted from one framed inner message, as the decoder does with
`FromRadio.FromString(packet_buf).packet`; unset fields come back as protobuf
defaults. -/
def parsePacket (bs : List Nat) : MeshPacket :=
  (parseMeshPacket bs).getD defaultMeshPacket

/-- One iteration of the `while len(self._recvbuf) > 4` loop of
`_decode_mesh_packets`: either a complete frame is extracted (`emit`), one
leading byte is dropped because the buffer does not start with the magic
pair (`dropByte`), or the call returns (`done`). -/
inductive LoopStep where
  | emit (inner : List Nat) (rest : List Nat)
  | dropByte (rest : List Nat)
  | done
deriving Repr, DecidableEq

/-- Body of the decoder loop, one iteration, exactly as in the source:
`payload_len = buf[2] << 8 | buf[3]`, a frame is complete when
`4 + payload_len` bytes are buffered. -/
def decodeLoopStep (buf : List Nat) : LoopStep :=
  if buf.length ≤ 4 then .done
  else if buf.getD 0 0 = MT_MAGIC_0 ∧ buf.getD 1 0 = MT_MAGIC_1 then
    if buf.length < 4 + ((buf.getD 2 0) <<< 8 ||| buf.getD 3 0) then .done
    else .emit ((buf.drop 4).take ((buf.getD 2 0) <<< 8 ||| buf.getD 3 0))
      (buf.drop (4 + ((buf.getD 2 0) <<< 8 ||| buf.getD 3 0)))
  else .dropByte (buf.drop 1)

/-- Frame-extraction loop of `_decode_mesh_packets` (`while len > 4`),
returning the decoded packets in order together with the final buffer. -/
def decodeLoop (buf : List Nat) : List MeshPacket × List Nat :=
  if _h1 : buf.length ≤ 4 then ([], buf)
  else if _h2 : buf.getD 0 0 = MT_MAGIC_0 ∧ buf.getD 1 0 = MT_MAGIC_1 then
    let payload_len := (buf.getD 2 0) <<< 8 ||| buf.getD 3 0
    if _h3 : buf.length < 4 + payload_len then ([], buf)
    else
      let r := decodeLoop (buf.drop (4 + payload_len))
      (parsePacket ((buf.drop 4).take payload_len) :: r.1, r.2)
  else decodeLoop (buf.drop 1)
termination_by buf.length
decreasing_by
  · simp only [List.length_drop]; omega
  · simp only [List.length_drop]; omega

/-- Method `_decode_mesh_packets(data)`: append `data` to the receive buffer,
hunt for the first `0x94` byte (`self._recvbuf.find(MT_MAGIC_0)`), clearing
the buffer entirely when none exists, otherwise cutting everything before it,
then run the frame-extraction loop.  Returns the decoded packets and the
buffer left behind for the next call. -/
def decodeMeshPackets (recvbuf data : List Nat) : List MeshPacket × List Nat :=
  let buf := recvbuf ++ data
  match buf.findIdx? (fun b => b == MT_MAGIC_0) with
  | none => ([], [])
  | some i => decodeLoop (buf.drop i)

/-- Python `range(start, stop, step)` over naturals for a non-negative step
(empty when `step = 0`; the source only ever calls it with the positive
constant `MAX_LEN`). -/
def pyRange (start stop step : Nat) : List Nat :=
  if _h : step = 0 then []
  else if start < stop then start :: pyRange (start + step) stop step
  else []
termination_by stop - start
decreasing_by omega

/-- Configuration read by the encode and reassembly paths: the subscribed
channel (`self.channel`), the application port base (`self.mesh_port_num`,
`PRIVATE_APP` in the source) and the fragment bound (`MAX_LEN =
Constants.DATA_PAYLOAD_LEN - 4` in the source), kept as a field so that
statements can also be instantiated at the spec's example fragment size. -/
structure Config where
  channel : Nat
  meshPortNum : Nat
  maxLen : Nat
deriving Repr, DecidableEq

/-- Configuration with the constants of `MeshtasticInterface.py` itself
(channel comes from the interface configuration; 2 is the value the sibling
sources default to). -/
def defaultConfig : Config :=
  { channel := 2, meshPortNum := PRIVATE_APP, maxLen := DATA_PAYLOAD_LEN - 4 }

/-- Logical packet built by one pass of the fragmentation loop of
`_create_mesh_packets` for the fragment starting at `startByte`: broadcast
destination, id 0 (no ack), the configured channel, `want_ack` false, the
`maxLen`-bounded slice of `data` as payload, and the port base as port
number, incremented on the final fragment
(`start_byte + MAX_LEN >= len(data)`). -/
def mkMeshPacket (cfg : Config) (data : List Nat) (startByte : Nat) : MeshPacket :=
  { dest := MESH_DEST_ADDR
    pid := 0
    channel := cfg.channel
    want_ack := false
    decoded := some
      { portnum :=
          if data.length ≤ startByte + cfg.maxLen then cfg.meshPortNum + 1
          else cfg.meshPortNum
        payload := (data.drop startByte).take cfg.maxLen } }

/-- Wire frame around a serialized inner message:
`bytes([MT_MAGIC_0, MT_MAGIC_1, (buflen >> 8) & 0xFF, buflen & 0xFF]) + packet`. -/
def frameBytes (packet : List Nat) : List Nat :=
  MT_MAGIC_0 :: MT_MAGIC_1 ::
    ((packet.length >>> 8) &&& 0xFF) :: (packet.length &&& 0xFF) :: packet

/-- Method `_create_mesh_packets(data)`: split `data` at the offsets
`range(0, len(data), MAX_LEN)`, build the logical packet for each slice,
serialize it and wrap it in a wire frame; the frames are returned in
fragment order. -/
def createMeshPackets (cfg : Config) (data : List Nat) : List (List Nat) :=
  (pyRange 0 data.length cfg.maxLen).map
    (fun startByte => frameBytes (serializeMeshPacket (mkMeshPacket cfg data startByte)))

/-- Concatenation of the application payloads of the buffered fragments:
the join the sentinel triggers in `read_loop`
(`b''.join(x.decoded.payload for x in self._recv_partial_msg)`); protobuf
returns the empty default for an unset `decoded` submessage. -/
def joinPayloads (l : List MeshPacket) : List Nat :=
  (l.map (fun x => ((x.decoded).map DecodedData.payload).getD [])).flatten

/-- One decoded packet through the packet loop of `read_loop`: drop it when
its `decoded` submessage is unset or its channel is not the subscribed one;
otherwise append it to the in-progress fragment list `frags`
(`self._recv_partial_msg`), and when its port number is the sentinel
`mesh_port_num + 1`, hand the joined payloads upstream and clear the list.
Returns the new fragment list and the completed message, if any. -/
def reassemblyStep (cfg : Config) (frags : List MeshPacket) (p : MeshPacket) :
    List MeshPacket × Option (List Nat) :=
  match p.decoded with
  | none => (frags, none)
  | some d =>
    if p.channel = cfg.channel then
      let frags2 := frags ++ [p]
      if d.portnum = cfg.meshPortNum + 1 then
        ([], some (joinPayloads frags2))
      else (frags2, none)
    else (frags, none)

/-- Packet loop of `read_loop` (`for packet in packets`): every decoded
packet of one receive call goes through `reassemblyStep`; the completed
messages handed to `process_incoming` are collected in order. -/
def processPackets (cfg : Config) (frags : List MeshPacket) :
    List MeshPacket → List MeshPacket × List (List Nat)
  | [] => (frags, [])
  | p :: ps =>
    let r := reassemblyStep cfg frags p
    let rest := processPackets cfg r.1 ps
    (rest.1, match r.2 with | none => rest.2 | some m => m :: rest.2)

/-- Interface state touched by `process_outgoing`: the online flag, the
transmitted-byte counter `self.txb`, and the buffers handed to
`self._sock.send` in order (`send` returns the byte count of the buffer). -/
structure TxState where
  online : Bool
  txb : Nat
  sentBuffers : List (List Nat)
deriving Repr, DecidableEq

/-- Method `process_outgoing(data)`: when online, send every frame of
`_create_mesh_packets(data)` in order, adding each `send` return value to
`txb`; when not online, do nothing at all. -/
def processOutgoing (cfg : Config) (st : TxState) (data : List Nat) : TxState :=
  if st.online then
    (createMeshPackets cfg data).foldl
      (fun s packet =>
        { s with txb := s.txb + packet.length,
                 sentBuffers := s.sentBuffers ++ [packet] })
      st
  else st

/-- Receive-path state of the interface: the online flag, the raw receive
buffer, the in-progress fragment list, the received-byte counter `self.rxb`
and the messages delivered upstream through `process_incoming`. -/
structure RxState where
  online : Bool
  recvbuf : List Nat
  frags : List MeshPacket
  rxb : Nat
  delivered : List (List Nat)
deriving Repr, DecidableEq

/-- Body of `read_loop` for one non-empty receive: decode the bytes, run the
decoded packets through the reassembly loop, and deliver every completed
message through `process_incoming` (which adds the byte count to `rxb` and
hands the message to the transport). -/
def readLoopBody (cfg : Config) (st : RxState) (buf : List Nat) : RxState :=
  let dec := decodeMeshPackets st.recvbuf buf
  let res := processPackets cfg st.frags dec.1
  { online := st.online
    recvbuf := dec.2
    frags := res.1
    rxb := st.rxb + (res.2.map List.length).sum
    delivered := st.delivered ++ res.2 }

/-- Method `reconnect_port`, driven by a finite trace of attempt outcomes:
each loop iteration sleeps the fixed 5-second backoff and then runs
`open_port()` plus `configure_device()` inside `try/except`; a successful
attempt (`true`) sets the online flag, a failed attempt (`false`) models a
raised exception that is caught and logged, leaving the state untouched.
Returns the final state and the number of attempts consumed (each attempt is
one backoff sleep), or `none` when every attempt in the trace failed, i.e.
the loop is still retrying when the trace runs out. -/
def reconnectPort (st : RxState) : List Bool → Option (RxState × Nat)
  | [] => if st.online then some (st, 0) else none
  | o :: os =>
    if st.online then some (st, 0)
    else
      let st2 := if o then { st with online := true } else st
      match reconnectPort st2 os with
      | some (stf, n) => some (stf, n + 1)
      | none => none

/-- Thread body `read_loop`, driven by a finite trace of `recv` results and a
trace of reconnect-attempt outcomes: each non-empty read goes through the
decode/reassemble/deliver body; a zero-length read breaks the loop, clears
the online flag and enters `reconnect_port`.  Returns `none` while the loop
is still running when the traces run out. -/
def readLoop (cfg : Config) (st : RxState) :
    List (List Nat) → List Bool → Option (RxState × Nat)
  | [], _ => none
  | buf :: bufs, outcomes =>
    if buf.length = 0 then reconnectPort { st with online := false } outcomes
    else readLoop cfg (readLoopBody cfg st buf) bufs outcomes

/-- Boolean test for an occurrence of the adjacent magic pair
`MT_MAGIC_0, MT_MAGIC_1` anywhere in a byte string. -/
def hasMagicPair : List Nat → Bool
  | a :: b :: rest => (a == MT_MAGIC_0 && b == MT_MAGIC_1) || hasMagicPair (b :: rest)
  | _ => false

/-! ## Codec lemmas -/

theorem fromDigits_natDigits (n : Nat) : fromDigits (natDigits n) = n := by
  induction n using natDigits.induct with
  | case1 => simp [natDigits, fromDigits]
  | case2 x hx ih =>
    rw [natDigits, dif_neg hx, fromDigits, ih]
    omega

theorem parseNat_encNat (n : Nat) (rest : List Nat) :
    parseNat (encNat n ++ rest) = some (n, rest) := by
  rw [encNat, List.cons_append, parseNat, if_neg (by simp)]
  simp [List.take_left, List.drop_left, fromDigits_natDigits]

theorem parseMeshPacket_serialize (p : MeshPacket) :
    parseMeshPacket (serializeMeshPacket p) = some p := by
  obtain ⟨dest, pid, chan, wa, dec⟩ := p
  cases dec with
  | none =>
    cases wa <;>
      simp [serializeMeshPacket, parseMeshPacket, List.append_assoc, parseNat_encNat]
  | some d =>
    obtain ⟨pn, payload⟩ := d
    cases wa <;>
      simp [serializeMeshPacket, parseMeshPacket, List.append_assoc, parseNat_encNat]

theorem parsePacket_serialize (p : MeshPacket) :
    parsePacket (serializeMeshPacket p) = p := by
  rw [parsePacket, parseMeshPacket_serialize]
  rfl

theorem serialize_length_pos (p : MeshPacket) : 1 ≤ (serializeMeshPacket p).length := by
  rw [serializeMeshPacket, encNat]
  simp

theorem natDigits_length_le {n k : Nat} (h : n < 256 ^ k) : (natDigits n).length ≤ k := by
  induction k generalizing n with
  | zero =>
    interval_cases n
    simp [natDigits]
  | succ k ih =>
    by_cases hn : n = 0
    · simp [natDigits, hn]
    · rw [natDigits, dif_neg hn]
      have hdiv : n / 256 < 256 ^ k := by
        rw [Nat.div_lt_iff_lt_mul (by norm_num)]
        calc n < 256 ^ (k + 1) := h
        _ = 256 ^ k * 256 := by rw [Nat.pow_succ]
      simpa using ih hdiv

theorem encNat_length_le {n k : Nat} (h : n < 256 ^ k) : (encNat n).length ≤ k + 1 := by
  rw [encNat]
  simpa using natDigits_length_le h

/-- Helper: the two header arithmetic identities of the source,
`x & 0xFF = x % 256` and `x >> 8 = x / 256`. -/
theorem and255_eq_mod (n : Nat) : n &&& 0xFF = n % 256 := by
  have h := Nat.and_pow_two_sub_one_eq_mod n 8
  norm_num at h
  exact h

theorem shr8_eq_div (n : Nat) : n >>> 8 = n / 256 := by
  have h := Nat.shiftRight_eq_div_pow n 8
  norm_num at h
  exact h

/-- Helper: the decoder arithmetic `hi << 8 | lo` equals `hi * 256 + lo` for
a genuine low byte. -/
theorem lor_eq_add {a b : Nat} (hb : b < 256) : a <<< 8 ||| b = a * 256 + b := by
  have h256 : b < 2 ^ 8 := by norm_num; omega
  calc a <<< 8 ||| b = 2 ^ 8 * a ||| b := by rw [Nat.shiftLeft_eq, Nat.mul_comm]
    _ = 2 ^ 8 * a + b := (Nat.mul_add_lt_is_or h256 a).symm
    _ = a * 256 + b := by ring_nf

theorem serialize_mk_length_le (cfg : Config) (data : List Nat) (s : Nat)
    (hc : cfg.channel < 256 ^ 4) (hp : cfg.meshPortNum + 1 < 256 ^ 4)
    (hm : cfg.maxLen < 256 ^ 4) :
    (serializeMeshPacket (mkMeshPacket cfg data s)).length ≤ 23 + cfg.maxLen := by
  have hdest : (encNat MESH_DEST_ADDR).length ≤ 5 :=
    encNat_length_le (k := 4) (by norm_num [MESH_DEST_ADDR])
  have hpid : (encNat 0).length = 1 := by simp [encNat, natDigits]
  have hchan : (encNat cfg.channel).length ≤ 5 := encNat_length_le hc
  have hpay : ((data.drop s).take cfg.maxLen).length ≤ cfg.maxLen := by
    simp [List.length_take]
  have hport :
      (encNat (if data.length ≤ s + cfg.maxLen then cfg.meshPortNum + 1
               else cfg.meshPortNum)).length ≤ 5 :=
    encNat_length_le (by split <;> omega)
  have hplen : (encNat ((data.drop s).take cfg.maxLen).length).length ≤ 5 :=
    encNat_length_le (by omega)
  simp only [serializeMeshPacket, mkMeshPacket, List.length_append, List.length_cons]
  simp only [List.length_nil]
  omega

/-! ## Decoder lemmas -/

theorem frameBytes_length (s : List Nat) : (frameBytes s).length = 4 + s.length := by
  simp only [frameBytes, List.length_cons]
  omega

theorem decodeLoop_short {buf : List Nat} (h : buf.length ≤ 4) :
    decodeLoop buf = ([], buf) := by
  rw [decodeLoop, dif_pos h]

theorem decodeLoop_nil : decodeLoop [] = ([], []) :=
  decodeLoop_short (by simp)

theorem decodeLoop_frame (s rest : List Nat) (h1 : 1 ≤ s.length)
    (h2 : s.length < 65536) :
    decodeLoop (frameBytes s ++ rest) =
      (parsePacket s :: (decodeLoop rest).1, (decodeLoop rest).2) := by
  have hcons : frameBytes s ++ rest =
      MT_MAGIC_0 :: MT_MAGIC_1 :: ((s.length >>> 8) &&& 0xFF) ::
        (s.length &&& 0xFF) :: (s ++ rest) := by
    simp [frameBytes]
  have hlen : (frameBytes s ++ rest).length = 4 + s.length + rest.length := by
    simp only [List.length_append, frameBytes, List.length_cons]
    omega
  have hpl : ((s.length >>> 8) &&& 0xFF) <<< 8 ||| (s.length &&& 0xFF) = s.length := by
    rw [and255_eq_mod, and255_eq_mod, shr8_eq_div,
        Nat.mod_eq_of_lt (by omega : s.length / 256 < 256),
        lor_eq_add (Nat.mod_lt _ (by norm_num))]
    omega
  rw [decodeLoop, dif_neg (by omega)]
  rw [hcons]
  simp only [List.getD_cons_zero, List.getD_cons_succ]
  rw [dif_pos ⟨trivial, trivial⟩]
  simp only [hpl]
  rw [dif_neg (by rw [← hcons]; omega)]
  have hdrop4 : (MT_MAGIC_0 :: MT_MAGIC_1 :: ((s.length >>> 8) &&& 0xFF) ::
      (s.length &&& 0xFF) :: (s ++ rest)).drop 4 = s ++ rest := by
    simp
  have hdropAll : (MT_MAGIC_0 :: MT_MAGIC_1 :: ((s.length >>> 8) &&& 0xFF) ::
      (s.length &&& 0xFF) :: (s ++ rest)).drop (4 + s.length) = rest := by
    rw [show 4 + s.length = s.length + 1 + 1 + 1 + 1 from by omega]
    simp only [List.drop_succ_cons]
    exact List.drop_left s rest
  rw [hdrop4, hdropAll, List.take_left]

/-- Helper: decoding the concatenation of well-sized frames from an empty
buffer yields exactly the framed packets, leaving an empty buffer. -/
theorem decodeLoop_frames (ss : List (List Nat))
    (h : ∀ s ∈ ss, 1 ≤ s.length ∧ s.length < 65536) :
    decodeLoop ((ss.map frameBytes).flatten) = (ss.map parsePacket, []) := by
  induction ss with
  | nil => simpa using decodeLoop_nil
  | cons s ss ih =>
    have hs := h s (by simp)
    have hrest : ∀ t ∈ ss, 1 ≤ t.length ∧ t.length < 65536 := by
      intro t ht
      exact h t (by simp [ht])
    simp only [List.map_cons, List.flatten_cons]
    rw [decodeLoop_frame s _ hs.1 hs.2, ih hrest]

theorem decodeMeshPackets_frames (ss : List (List Nat))
    (h : ∀ s ∈ ss, 1 ≤ s.length ∧ s.length < 65536) :
    decodeMeshPackets [] ((ss.map frameBytes).flatten) = (ss.map parsePacket, []) := by
  cases ss with
  | nil => rfl
  | cons s ss =>
    rw [decodeMeshPackets]
    simp only [List.nil_append, List.map_cons, List.flatten_cons, frameBytes,
      List.cons_append, List.findIdx?_cons]
    norm_num [MT_MAGIC_0]
    have := decodeLoop_frames (s :: ss) h
    simpa [frameBytes] using this

/-! ## Fragmentation and reassembly lemmas -/

theorem pyRange_eq_cons {start stop step : Nat} (hstep : step ≠ 0) (h : start < stop) :
    pyRange start stop step = start :: pyRange (start + step) stop step := by
  rw [pyRange, dif_neg hstep, if_pos h]

theorem pyRange_eq_nil {start stop step : Nat} (h : stop ≤ start) :
    pyRange start stop step = [] := by
  rw [pyRange]
  split
  · rfl
  · rw [if_neg (by omega)]

theorem pyRange_length (M : Nat) (hM : M ≠ 0) :
    ∀ k s n, n - s ≤ k → s < n →
      (pyRange s n M).length = (n - s - 1) / M + 1 := by
  intro k
  induction k with
  | zero => intro s n h1 h2; omega
  | succ k ih =>
    intro s n h1 h2
    rw [pyRange_eq_cons hM h2, List.length_cons]
    by_cases hlast : n ≤ s + M
    · rw [pyRange_eq_nil hlast]
      rw [Nat.div_eq_of_lt (by omega)]
      simp
    · rw [ih (s + M) n (by omega) (by omega)]
      have hsub : n - s - 1 = (n - (s + M) - 1) + M := by omega
      rw [hsub, Nat.add_div_right _ (by omega)]

theorem joinPayloads_nil : joinPayloads [] = [] := rfl

theorem joinPayloads_append_one (l : List MeshPacket) (p : MeshPacket)
    (d : DecodedData) (hd : p.decoded = some d) :
    joinPayloads (l ++ [p]) = joinPayloads l ++ d.payload := by
  simp [joinPayloads, hd]

theorem reassemblyStep_sentinel (cfg : Config) (acc : List MeshPacket)
    (p : MeshPacket) (d : DecodedData) (hdec : p.decoded = some d)
    (hchan : p.channel = cfg.channel) (hport : d.portnum = cfg.meshPortNum + 1) :
    reassemblyStep cfg acc p = ([], some (joinPayloads (acc ++ [p]))) := by
  simp only [reassemblyStep, hdec, if_pos hchan, if_pos hport]

theorem reassemblyStep_mid (cfg : Config) (acc : List MeshPacket)
    (p : MeshPacket) (d : DecodedData) (hdec : p.decoded = some d)
    (hchan : p.channel = cfg.channel) (hport : d.portnum ≠ cfg.meshPortNum + 1) :
    reassemblyStep cfg acc p = (acc ++ [p], none) := by
  simp only [reassemblyStep, hdec, if_pos hchan, if_neg hport]

/-- Helper: feeding the logical fragments of a non-empty suffix of `data`
through the reassembly loop delivers exactly one message, the buffered
payloads followed by that suffix, and clears the fragment list. -/
theorem processPackets_fragments (cfg : Config) (data : List Nat)
    (hM : cfg.maxLen ≠ 0) :
    ∀ k s acc, data.length - s ≤ k → s < data.length →
      processPackets cfg acc
        ((pyRange s data.length cfg.maxLen).map (mkMeshPacket cfg data)) =
      ([], [joinPayloads acc ++ data.drop s]) := by
  intro k
  induction k with
  | zero => intro s acc h1 h2; omega
  | succ k ih =>
    intro s acc h1 h2
    rw [pyRange_eq_cons hM h2, List.map_cons]
    have hdec : (mkMeshPacket cfg data s).decoded =
        some { portnum := if data.length ≤ s + cfg.maxLen then cfg.meshPortNum + 1
                          else cfg.meshPortNum
               payload := (data.drop s).take cfg.maxLen } := rfl
    have hchan : (mkMeshPacket cfg data s).channel = cfg.channel := rfl
    by_cases hlast : data.length ≤ s + cfg.maxLen
    · rw [pyRange_eq_nil hlast, List.map_nil]
      simp only [processPackets]
      rw [reassemblyStep_sentinel cfg acc _ _ hdec hchan (by simp [hlast])]
      rw [joinPayloads_append_one acc _ _ hdec]
      have htake : (data.drop s).take cfg.maxLen = data.drop s :=
        List.take_of_length_le (by simp; omega)
      simp [htake]
    · simp only [processPackets]
      rw [reassemblyStep_mid cfg acc _ _ hdec hchan (by simp [hlast])]
      rw [ih (s + cfg.maxLen) (acc ++ [mkMeshPacket cfg data s]) (by omega) (by omega)]
      rw [joinPayloads_append_one acc _ _ hdec]
      have hjoin : ((data.drop s).take cfg.maxLen) ++ data.drop (s + cfg.maxLen) =
          data.drop s := by
        rw [← List.drop_drop cfg.maxLen s data]
        exact List.take_append_drop cfg.maxLen (data.drop s)
      simp [List.append_assoc, hjoin]

/-- Helper: parsing back the serializations of the fragment packets recovers
the fragment packets. -/
theorem map_parse_serialize_mk (cfg : Config) (data : List Nat) (l : List Nat) :
    (l.map (fun st => serializeMeshPacket (mkMeshPacket cfg data st))).map parsePacket =
    l.map (mkMeshPacket cfg data) := by
  induction l with
  | nil => rfl
  | cons a l ih => simp only [List.map_cons, ih, parsePacket_serialize]

/-- Helper: full round trip for any non-empty payload: encoding, decoding the
concatenated frames from an empty buffer and reassembling from an empty
fragment list delivers exactly the original payload and clears all state. -/
theorem roundTrip_nonempty (cfg : Config) (data : List Nat)
    (hM : cfg.maxLen ≠ 0) (hdata : data ≠ [])
    (hc : cfg.channel < 256 ^ 4) (hp : cfg.meshPortNum + 1 < 256 ^ 4)
    (hm : cfg.maxLen ≤ 65512) :
    processPackets cfg []
      (decodeMeshPackets [] (createMeshPackets cfg data).flatten).1 = ([], [data]) := by
  have hframes : createMeshPackets cfg data =
      (((pyRange 0 data.length cfg.maxLen).map
        (fun st => serializeMeshPacket (mkMeshPacket cfg data st))).map frameBytes) := by
    rw [createMeshPackets, List.map_map]
    rfl
  have hsizes : ∀ s ∈ (pyRange 0 data.length cfg.maxLen).map
      (fun st => serializeMeshPacket (mkMeshPacket cfg data st)),
      1 ≤ s.length ∧ s.length < 65536 := by
    intro s hs
    rw [List.mem_map] at hs
    obtain ⟨st, _, rfl⟩ := hs
    refine ⟨serialize_length_pos _, ?_⟩
    have hb := serialize_mk_length_le cfg data st hc hp (by norm_num; omega)
    omega
  rw [hframes, decodeMeshPackets_frames _ hsizes]
  rw [map_parse_serialize_mk]
  have h0 : 0 < data.length := List.length_pos.2 hdata
  have hmain := processPackets_fragments cfg data hM data.length 0 [] (by omega) h0
  simpa [joinPayloads_nil] using hmain

/-- Helper: the port-number column of the fragment series of a non-empty
suffix: every fragment carries the port base except the last, which carries
the sentinel. -/
theorem fragment_portnums_aux (cfg : Config) (data : List Nat)
    (hM : cfg.maxLen ≠ 0) :
    ∀ k s, data.length - s ≤ k → s < data.length →
      (pyRange s data.length cfg.maxLen).map
        (fun st => ((mkMeshPacket cfg data st).decoded).map DecodedData.portnum) =
      List.replicate ((pyRange s data.length cfg.maxLen).length - 1)
        (some cfg.meshPortNum) ++ [some (cfg.meshPortNum + 1)] := by
  intro k
  induction k with
  | zero => intro s h1 h2; omega
  | succ k ih =>
    intro s h1 h2
    rw [pyRange_eq_cons hM h2]
    by_cases hlast : data.length ≤ s + cfg.maxLen
    · rw [pyRange_eq_nil hlast]
      simp [mkMeshPacket, hlast]
    · have h3 : s + cfg.maxLen < data.length := by omega
      rw [List.map_cons, ih (s + cfg.maxLen) (by omega) h3]
      have hT : 1 ≤ (pyRange (s + cfg.maxLen) data.length cfg.maxLen).length := by
        rw [pyRange_eq_cons hM h3]
        simp
      rw [List.length_cons]
      rw [show (pyRange (s + cfg.maxLen) data.length cfg.maxLen).length + 1 - 1 =
        ((pyRange (s + cfg.maxLen) data.length cfg.maxLen).length - 1) + 1 from by omega]
      rw [List.replicate_succ, List.cons_append]
      simp [mkMeshPacket, hlast]

/-- Claim C1 (amended: the zero-length payload is excluded, since
`_create_mesh_packets` produces no frame at all for it).  For every payload
of length 1, MAX_FRAGMENT - 1, MAX_FRAGMENT, MAX_FRAGMENT + 1 or
3 * MAX_FRAGMENT, encoding it into wire frames and feeding the concatenated
frames through the decoder and the sentinel-based reassembly on the same
channel and port base yields exactly one assembled message equal to the
original payload (fragment bound at least 2 and realistically sized,
channel and port base within protobuf varint range). -/
theorem claim_C1_roundtrip (cfg : Config) (data : List Nat)
    (hM : 2 ≤ cfg.maxLen) (hm : cfg.maxLen ≤ 65512)
    (hc : cfg.channel < 256 ^ 4) (hp : cfg.meshPortNum + 1 < 256 ^ 4)
    (hlen : data.length = 1 ∨ data.length = cfg.maxLen - 1 ∨
      data.length = cfg.maxLen ∨ data.length = cfg.maxLen + 1 ∨
      data.length = 3 * cfg.maxLen) :
    processPackets cfg []
      (decodeMeshPackets [] (createMeshPackets cfg data).flatten).1 = ([], [data]) := by
  have hdata : data ≠ [] := by
    intro hnil
    rw [hnil] at hlen
    simp at hlen
    omega
  exact roundTrip_nonempty cfg data (by omega) hdata hc hp hm

/-- Witness for C1 at a concrete input: fragment bound 2, channel 2, port
base 256, payload `[7]` of length 1. -/
theorem claim_C1_roundtrip_witness :
    processPackets ⟨2, 256, 2⟩ []
      (decodeMeshPackets [] (createMeshPackets ⟨2, 256, 2⟩ [7]).flatten).1
      = ([], [[7]]) :=
  claim_C1_roundtrip ⟨2, 256, 2⟩ [7] (by norm_num) (by norm_num) (by norm_num)
    (by norm_num) (Or.inl rfl)

/-- Counterexample to C1 as stated: for the zero-length payload, encoding
produces no frames, so decode plus reassembly delivers no message at all,
not one empty message. -/
theorem claim_C1_counterexample :
    (processPackets defaultConfig []
      (decodeMeshPackets [] (createMeshPackets defaultConfig ([] : List Nat)).flatten).1).2
      ≠ [([] : List Nat)] := by
  have hnil : createMeshPackets defaultConfig ([] : List Nat) = [] := by
    rw [createMeshPackets]
    rw [pyRange_eq_nil (by simp)]
    rfl
  rw [hnil]
  simp [decodeMeshPackets, processPackets]

/-- Claim C2 (amended: the code produces no frame at all for the empty
payload).  For the empty payload, the fragmentation loop of
`_create_mesh_packets` never runs, so encoding yields an empty frame list:
an empty message is not representable on the wire. -/
theorem claim_C2_empty_payload (cfg : Config) :
    createMeshPackets cfg ([] : List Nat) = [] := by
  rw [createMeshPackets]
  rw [pyRange_eq_nil (by simp)]
  rfl

/-- Counterexample to C2 as stated: at the interface's own configuration the
empty payload yields zero wire frames, not exactly one. -/
theorem claim_C2_counterexample :
    (createMeshPackets defaultConfig ([] : List Nat)).length ≠ 1 := by
  have hnil : createMeshPackets defaultConfig ([] : List Nat) = [] := by
    rw [createMeshPackets]
    rw [pyRange_eq_nil (by simp)]
    rfl
  rw [hnil]
  simp

/-- Claim C3: a non-empty payload is encoded into
ceil(len / MAX_FRAGMENT) = (len + MAX_FRAGMENT - 1) / MAX_FRAGMENT wire
frames, in fragment order; the logical packets behind the frames carry the
port base on every fragment but the last, which carries the sentinel
port base + 1 (so a payload that exactly fills one fragment yields a single
fragment marked final). -/
theorem claim_C3_fragment_series (cfg : Config) (data : List Nat)
    (hM : cfg.maxLen ≠ 0) (hdata : data ≠ []) :
    createMeshPackets cfg data =
      ((pyRange 0 data.length cfg.maxLen).map (mkMeshPacket cfg data)).map
        (fun p => frameBytes (serializeMeshPacket p)) ∧
    ((pyRange 0 data.length cfg.maxLen).map (mkMeshPacket cfg data)).length =
      (data.length + cfg.maxLen - 1) / cfg.maxLen ∧
    ((pyRange 0 data.length cfg.maxLen).map (mkMeshPacket cfg data)).map
        (fun p => (p.decoded).map DecodedData.portnum) =
      List.replicate ((data.length + cfg.maxLen - 1) / cfg.maxLen - 1)
        (some cfg.meshPortNum) ++ [some (cfg.meshPortNum + 1)] := by
  have h0 : 0 < data.length := List.length_pos.2 hdata
  have hcnt : (pyRange 0 data.length cfg.maxLen).length =
      (data.length + cfg.maxLen - 1) / cfg.maxLen := by
    rw [pyRange_length cfg.maxLen hM data.length 0 data.length (by omega) h0]
    rw [show data.length + cfg.maxLen - 1 = (data.length - 0 - 1) + cfg.maxLen from by omega]
    rw [Nat.add_div_right _ (by omega)]
  refine ⟨?_, by simpa using hcnt, ?_⟩
  · rw [createMeshPackets, List.map_map]
    rfl
  · have hmm : ∀ l : List Nat,
        (l.map (mkMeshPacket cfg data)).map (fun p => (p.decoded).map DecodedData.portnum) =
        l.map (fun st => ((mkMeshPacket cfg data st).decoded).map DecodedData.portnum) := by
      intro l
      induction l with
      | nil => rfl
      | cons a l ih => simp only [List.map_cons, ih]
    rw [hmm]
    have hx := fragment_portnums_aux cfg data hM data.length 0 (by omega) h0
    rw [hx, hcnt]

/-- Witness for C3 at the spec's end-to-end example: a 600-byte payload with
fragment size 200 yields 3 fragments, the first two at port base 256, the
third at 257. -/
theorem claim_C3_fragment_series_witness :
    (((pyRange 0 (List.replicate 600 0 : List Nat).length 200).map
        (mkMeshPacket ⟨2, 256, 200⟩ (List.replicate 600 0))).length = 3) ∧
    ((pyRange 0 (List.replicate 600 0 : List Nat).length 200).map
        (mkMeshPacket ⟨2, 256, 200⟩ (List.replicate 600 0))).map
        (fun p => (p.decoded).map DecodedData.portnum) =
      [some 256, some 256, some 257] := by
  obtain ⟨h1, h2, h3⟩ := claim_C3_fragment_series ⟨2, 256, 200⟩
    (List.replicate 600 0) (by norm_num)
    (List.ne_nil_of_length_pos (by rw [List.length_replicate]; norm_num))
  constructor
  · rw [h2]
    norm_num
  · rw [h3]
    norm_num
    decide

/-! ## Resynchronisation lemmas -/

theorem hasMagicPair_tail {a : Nat} {l : List Nat}
    (h : hasMagicPair (a :: l) = false) : hasMagicPair l = false := by
  cases l with
  | nil => rfl
  | cons b r =>
    rw [hasMagicPair] at h
    simp only [Bool.or_eq_false_iff] at h
    exact h.2

theorem hasMagicPair_drop {l : List Nat} (n : Nat)
    (h : hasMagicPair l = false) : hasMagicPair (l.drop n) = false := by
  induction n generalizing l with
  | zero => simpa using h
  | succ n ih =>
    cases l with
    | nil => rfl
    | cons a r =>
      rw [List.drop_succ_cons]
      exact ih (hasMagicPair_tail h)

theorem hasMagicPair_of_head (buf : List Nat) (hl : 1 < buf.length)
    (h0 : buf.getD 0 0 = MT_MAGIC_0) (h1 : buf.getD 1 0 = MT_MAGIC_1) :
    hasMagicPair buf = true := by
  match buf, hl with
  | a :: b :: r, _ =>
    simp only [List.getD_cons_zero, List.getD_cons_succ] at h0 h1
    rw [hasMagicPair, h0, h1]
    simp

/-- Helper: on a buffer containing no adjacent magic pair, the decode loop
can never extract a frame. -/
theorem decodeLoop_no_pair (buf : List Nat) (h : hasMagicPair buf = false) :
    (decodeLoop buf).1 = [] := by
  induction buf using decodeLoop.induct with
  | case1 buf h4 => rw [decodeLoop_short h4]
  | case2 buf h4 hpair pl h3 =>
    rw [decodeLoop, dif_neg h4, dif_pos hpair]
    rw [dif_pos h3]
  | case3 buf h4 hpair h3 ih =>
    have := hasMagicPair_of_head buf (by omega) hpair.1 hpair.2
    rw [this] at h
    cases h
  | case4 buf h4 hpair ih =>
    rw [decodeLoop, dif_neg h4, dif_neg hpair]
    exact ih (hasMagicPair_drop 1 h)

/-- Claim C4 (amended: the decoder's buffer-clearing tests for the single
byte 0x94, not for the pair).  A single decoder call from an empty buffer on
input with no occurrence of the magic pair decodes nothing; the residual
buffer is moreover empty whenever the input contains no 0x94 byte at all
(when a lone 0x94 is present, a short tail may be retained). -/
theorem claim_C4_resync_total_miss (data : List Nat)
    (h : hasMagicPair data = false) :
    (decodeMeshPackets [] data).1 = [] ∧
    (MT_MAGIC_0 ∉ data → decodeMeshPackets [] data = ([], [])) := by
  constructor
  · rw [decodeMeshPackets]
    simp only [List.nil_append]
    cases hf : data.findIdx? (fun b => b == MT_MAGIC_0) with
    | none => rfl
    | some i => exact decodeLoop_no_pair _ (hasMagicPair_drop i h)
  · intro hmem
    rw [decodeMeshPackets]
    simp only [List.nil_append]
    have hnone : data.findIdx? (fun b => b == MT_MAGIC_0) = none := by
      rw [List.findIdx?_eq_none_iff]
      intro x hx
      simp only [beq_eq_false_iff_ne, ne_eq]
      intro heq
      exact hmem (heq ▸ hx)
    rw [hnone]

/-- Witness for C4 at a concrete input with neither pair nor 0x94 byte. -/
theorem claim_C4_resync_total_miss_witness :
    (decodeMeshPackets [] [1, 2, 3]).1 = [] ∧
    decodeMeshPackets [] [1, 2, 3] = ([], []) :=
  ⟨(claim_C4_resync_total_miss [1, 2, 3] (by decide)).1,
   (claim_C4_resync_total_miss [1, 2, 3] (by decide)).2 (by decide)⟩

/-- Counterexample to C4 as stated: the input consisting of the single byte
0x94 contains no magic pair, yet the decoder call leaves it in the residual
buffer instead of clearing it. -/
theorem claim_C4_counterexample :
    hasMagicPair [0x94] = false ∧
    (decodeMeshPackets [] [0x94]).2 = [0x94] ∧ ([0x94] : List Nat) ≠ [] := by
  refine ⟨rfl, ?_, by simp⟩
  have hval : decodeMeshPackets [] [0x94] = ([], [0x94]) := by
    rw [decodeMeshPackets]
    simp only [List.nil_append]
    rw [show ([0x94] : List Nat).findIdx? (fun b => b == MT_MAGIC_0) = some 0 from by decide]
    show decodeLoop (List.drop 0 [0x94]) = ([], [0x94])
    rw [List.drop_zero, decodeLoop_short (by norm_num)]
  rw [hval]

/-! ## Split-frame lemmas -/

/-- Helper: the decoder's result depends only on the concatenation of the
retained buffer and the newly fed bytes. -/
theorem decodeMeshPackets_append (a b : List Nat) :
    decodeMeshPackets a b = decodeMeshPackets [] (a ++ b) := by
  rw [decodeMeshPackets, decodeMeshPackets, List.nil_append]

/-- Helper: decoding a single well-sized frame from an empty buffer yields
its packet and leaves nothing behind. -/
theorem decodeMeshPackets_one_frame (s : List Nat) (h1 : 1 ≤ s.length)
    (h2 : s.length < 65536) :
    decodeMeshPackets [] (frameBytes s) = ([parsePacket s], []) := by
  have h := decodeMeshPackets_frames [s] (by
    intro t ht
    rw [List.mem_singleton] at ht
    exact ht ▸ ⟨h1, h2⟩)
  simpa using h

/-- Helper: a strict prefix of a single frame decodes to nothing and is
retained whole in the buffer. -/
theorem decodeMeshPackets_partial_frame (s : List Nat) (k : Nat)
    (h1 : 1 ≤ s.length) (h2 : s.length < 65536)
    (hk : k < (frameBytes s).length) :
    decodeMeshPackets [] ((frameBytes s).take k) = ([], (frameBytes s).take k) := by
  have hflen : (frameBytes s).length = 4 + s.length := by
    simp only [frameBytes, List.length_cons]
    omega
  cases k with
  | zero => rfl
  | succ k0 =>
    have hcons : frameBytes s = MT_MAGIC_0 :: MT_MAGIC_1 ::
        ((s.length >>> 8) &&& 0xFF) :: (s.length &&& 0xFF) :: s := rfl
    have htk : (frameBytes s).take (k0 + 1) =
        MT_MAGIC_0 :: ((MT_MAGIC_1 :: ((s.length >>> 8) &&& 0xFF) ::
          (s.length &&& 0xFF) :: s).take k0) := by
      rw [hcons, List.take_succ_cons]
    have hlen : ((frameBytes s).take (k0 + 1)).length = k0 + 1 := by
      rw [List.length_take]
      omega
    rw [decodeMeshPackets]
    simp only [List.nil_append]
    rw [show ((frameBytes s).take (k0 + 1)).findIdx? (fun b => b == MT_MAGIC_0)
        = some 0 from by rw [htk]; simp [List.findIdx?_cons]]
    show decodeLoop (((frameBytes s).take (k0 + 1)).drop 0) = _
    rw [List.drop_zero]
    by_cases hsmall : k0 + 1 ≤ 4
    · exact decodeLoop_short (by omega)
    · have hg0 : ((frameBytes s).take (k0 + 1)).getD 0 0 = MT_MAGIC_0 := by
        rw [List.getD_eq_getElem?_getD, List.getElem?_take, if_pos (by omega : _ < k0 + 1), hcons]
        simp
      have hg1 : ((frameBytes s).take (k0 + 1)).getD 1 0 = MT_MAGIC_1 := by
        rw [List.getD_eq_getElem?_getD, List.getElem?_take, if_pos (by omega : _ < k0 + 1), hcons]
        simp
      have hg2 : ((frameBytes s).take (k0 + 1)).getD 2 0 = (s.length >>> 8) &&& 0xFF := by
        rw [List.getD_eq_getElem?_getD, List.getElem?_take, if_pos (by omega : _ < k0 + 1), hcons]
        simp
      have hg3 : ((frameBytes s).take (k0 + 1)).getD 3 0 = s.length &&& 0xFF := by
        rw [List.getD_eq_getElem?_getD, List.getElem?_take, if_pos (by omega : _ < k0 + 1), hcons]
        simp
      have hpl : (((frameBytes s).take (k0 + 1)).getD 2 0) <<< 8 |||
          ((frameBytes s).take (k0 + 1)).getD 3 0 = s.length := by
        rw [hg2, hg3, and255_eq_mod, and255_eq_mod, shr8_eq_div,
            Nat.mod_eq_of_lt (by omega : s.length / 256 < 256),
            lor_eq_add (Nat.mod_lt _ (by norm_num))]
        omega
      rw [decodeLoop, dif_neg (by omega), dif_pos ⟨hg0, hg1⟩]
      rw [dif_pos (by rw [hpl]; omega)]

/-- Claim C5 (amended: restricted to frames whose inner message is a
serialized packet, which is always at least one byte long in the modelled
codec; the four-byte frame with a zero-length inner message is never emitted
by the decode loop, see the counterexample).  Splitting the wire frame of a
serialized packet at any offset and feeding the two halves to the decoder in
order yields in total exactly that one packet, independent of the split
point, and a call holding only a strict prefix of the frame emits nothing
and retains the prefix. -/
theorem claim_C5_split_frame (p : MeshPacket) (k : Nat)
    (hL : (serializeMeshPacket p).length < 65536)
    (hk : k ≤ (frameBytes (serializeMeshPacket p)).length) :
    ((decodeMeshPackets [] ((frameBytes (serializeMeshPacket p)).take k)).1 ++
      (decodeMeshPackets
        (decodeMeshPackets [] ((frameBytes (serializeMeshPacket p)).take k)).2
        ((frameBytes (serializeMeshPacket p)).drop k)).1 = [p]) ∧
    (k < (frameBytes (serializeMeshPacket p)).length →
      decodeMeshPackets [] ((frameBytes (serializeMeshPacket p)).take k) =
        ([], (frameBytes (serializeMeshPacket p)).take k)) := by
  have hs1 : 1 ≤ (serializeMeshPacket p).length := serialize_length_pos p
  by_cases hfull : k < (frameBytes (serializeMeshPacket p)).length
  · have hpart := decodeMeshPackets_partial_frame (serializeMeshPacket p) k hs1 hL hfull
    refine ⟨?_, fun _ => hpart⟩
    rw [hpart]
    rw [decodeMeshPackets_append, List.take_append_drop]
    rw [decodeMeshPackets_one_frame _ hs1 hL, parsePacket_serialize]
    rfl
  · have hkeq : k = (frameBytes (serializeMeshPacket p)).length := by omega
    subst hkeq
    rw [List.take_length, List.drop_length]
    rw [decodeMeshPackets_one_frame _ hs1 hL, parsePacket_serialize]
    exact ⟨rfl, fun h => absurd h (by omega)⟩

/-- Witness for C5 at a concrete packet and split point: the frame of the
single-fragment packet for payload `[9]`, split after 5 bytes. -/
theorem claim_C5_split_frame_witness :
    ((decodeMeshPackets []
        ((frameBytes (serializeMeshPacket (mkMeshPacket ⟨2, 256, 3⟩ [9] 0))).take 5)).1 ++
      (decodeMeshPackets
        (decodeMeshPackets []
          ((frameBytes (serializeMeshPacket (mkMeshPacket ⟨2, 256, 3⟩ [9] 0))).take 5)).2
        ((frameBytes (serializeMeshPacket (mkMeshPacket ⟨2, 256, 3⟩ [9] 0))).drop 5)).1
      = [mkMeshPacket ⟨2, 256, 3⟩ [9] 0]) :=
  (claim_C5_split_frame (mkMeshPacket ⟨2, 256, 3⟩ [9] 0) 5
    (by
      have h := serialize_mk_length_le ⟨2, 256, 3⟩ [9] 0 (by norm_num) (by norm_num)
        (by norm_num)
      have hml : (⟨2, 256, 3⟩ : Config).maxLen = 3 := rfl
      rw [hml] at h
      omega)
    (by
      have h := serialize_length_pos (mkMeshPacket ⟨2, 256, 3⟩ [9] 0)
      rw [frameBytes_length]
      omega)).1

/-- Counterexample to C5 as stated: the four-byte wire frame with length
field zero and empty inner message (a valid frame: its length field matches
its inner length, and the empty byte string is a valid encoded message) is
decoded to nothing when split at offset 0, not to exactly one packet. -/
theorem claim_C5_counterexample :
    ((decodeMeshPackets [] (([0x94, 0xC3, 0, 0] : List Nat).take 0)).1 ++
      (decodeMeshPackets
        (decodeMeshPackets [] (([0x94, 0xC3, 0, 0] : List Nat).take 0)).2
        (([0x94, 0xC3, 0, 0] : List Nat).drop 0)).1).length = 0 := by
  rw [List.take_zero, List.drop_zero]
  have h1 : decodeMeshPackets [] ([] : List Nat) = ([], []) := rfl
  have h2 : decodeMeshPackets [] [0x94, 0xC3, 0, 0] = ([], [0x94, 0xC3, 0, 0]) := by
    rw [decodeMeshPackets]
    simp only [List.nil_append]
    rw [show ([0x94, 0xC3, 0, 0] : List Nat).findIdx? (fun b => b == MT_MAGIC_0)
        = some 0 from by decide]
    show decodeLoop (List.drop 0 [0x94, 0xC3, 0, 0]) = _
    rw [List.drop_zero, decodeLoop_short (by norm_num)]
  rw [h1, h2]
  rfl

/-! ## Decoder termination, channel filter, send path, reconnect -/

/-- Claim C6: the decoder loop follows its one-iteration body, and every
iteration that does not return strictly shrinks the buffer: dropping a
leading byte consumes exactly one byte, extracting a frame consumes at least
a full header, and a buffer of more than four bytes that does not start with
the magic pair always takes the one-byte resync step, so the decoder
terminates on every input and is never stuck. -/
theorem claim_C6_decoder_progress (buf : List Nat) :
    (decodeLoop buf = match decodeLoopStep buf with
      | .done => ([], buf)
      | .dropByte r => decodeLoop r
      | .emit inner r => (parsePacket inner :: (decodeLoop r).1, (decodeLoop r).2)) ∧
    (∀ r, decodeLoopStep buf = .dropByte r → r.length + 1 = buf.length) ∧
    (∀ inner r, decodeLoopStep buf = .emit inner r → r.length < buf.length) ∧
    (4 < buf.length → ¬(buf.getD 0 0 = MT_MAGIC_0 ∧ buf.getD 1 0 = MT_MAGIC_1) →
      decodeLoopStep buf = .dropByte (buf.drop 1)) := by
  refine ⟨?_, ?_, ?_, ?_⟩
  · rw [decodeLoopStep]
    by_cases h1 : buf.length ≤ 4
    · rw [if_pos h1, decodeLoop_short h1]
    · rw [if_neg h1]
      by_cases h2 : buf.getD 0 0 = MT_MAGIC_0 ∧ buf.getD 1 0 = MT_MAGIC_1
      · rw [if_pos h2]
        by_cases h3 : buf.length < 4 + ((buf.getD 2 0) <<< 8 ||| buf.getD 3 0)
        · rw [if_pos h3, decodeLoop, dif_neg h1, dif_pos h2, dif_pos h3]
        · rw [if_neg h3, decodeLoop, dif_neg h1, dif_pos h2, dif_neg h3]
      · rw [if_neg h2, decodeLoop, dif_neg h1, dif_neg h2]
  · intro r h
    rw [decodeLoopStep] at h
    split_ifs at h with h1 h2 h3
    cases h
    simp only [List.length_drop]
    omega
  · intro inner r h
    rw [decodeLoopStep] at h
    split_ifs at h with h1 h2 h3
    cases h
    simp only [List.length_drop]
    omega
  · intro hl hnp
    rw [decodeLoopStep, if_neg (by omega), if_neg hnp]

/-- Witness for C6 at a concrete buffer: six bytes not starting with the
magic pair take the one-byte resync step. -/
theorem claim_C6_decoder_progress_witness :
    ([0, 0, 0, 0, 0] : List Nat).length + 1 = ([9, 0, 0, 0, 0, 0] : List Nat).length :=
  (claim_C6_decoder_progress [9, 0, 0, 0, 0, 0]).2.1 [0, 0, 0, 0, 0] (by decide)

/-- Claim C7: a decoded packet without an application payload (unset
`decoded`), or whose channel differs from the subscription, is dropped by
the reassembly step without touching the fragment list or delivering
anything, even when its port number equals the sentinel. -/
theorem claim_C7_channel_filter (cfg : Config) (frags : List MeshPacket)
    (p : MeshPacket) (h : p.decoded = none ∨ p.channel ≠ cfg.channel) :
    reassemblyStep cfg frags p = (frags, none) := by
  cases h with
  | inl h => simp only [reassemblyStep, h]
  | inr h =>
    cases hd : p.decoded with
    | none => simp only [reassemblyStep, hd]
    | some d => simp only [reassemblyStep, hd, if_neg h]

/-- Witness for C7 at a concrete packet: sentinel port number 257 on channel
5 is ignored by a bridge subscribed to channel 2. -/
theorem claim_C7_channel_filter_witness :
    reassemblyStep ⟨2, 256, 233⟩ []
      ⟨0, 0, 5, false, some ⟨257, [1]⟩⟩ = ([], none) :=
  claim_C7_channel_filter ⟨2, 256, 233⟩ []
    ⟨0, 0, 5, false, some ⟨257, [1]⟩⟩ (Or.inr (by decide))

/-- Helper: folding the send step over a frame list appends the frames to
the sent buffers and adds their total length to the byte counter. -/
theorem foldl_send (frames : List (List Nat)) : ∀ st : TxState,
    frames.foldl
      (fun s packet =>
        { s with txb := s.txb + packet.length,
                 sentBuffers := s.sentBuffers ++ [packet] }) st =
    { online := st.online, txb := st.txb + (frames.map List.length).sum,
      sentBuffers := st.sentBuffers ++ frames } := by
  induction frames with
  | nil => intro st; simp
  | cons f fs ih =>
    intro st
    rw [List.foldl_cons, ih]
    simp only [List.map_cons, List.sum_cons, List.append_assoc, List.singleton_append]
    rw [Nat.add_assoc]

/-- Claim C8: when the interface is not online, `process_outgoing` drops the
payload silently: nothing is written, the byte counter and all other state
are unchanged, and nothing is queued (the state has no queue); when online,
all frames are written sequentially and the byte counter accumulates the
written byte counts. -/
theorem claim_C8_offline_drop (cfg : Config) (st : TxState) (data : List Nat) :
    (st.online = false → processOutgoing cfg st data = st) ∧
    (st.online = true → processOutgoing cfg st data =
      { online := st.online,
        txb := st.txb + ((createMeshPackets cfg data).map List.length).sum,
        sentBuffers := st.sentBuffers ++ createMeshPackets cfg data }) := by
  constructor
  · intro h
    rw [processOutgoing, if_neg (by rw [h]; exact Bool.false_ne_true)]
  · intro h
    rw [processOutgoing, if_pos h]
    exact foldl_send _ st

/-- Witness for C8 at concrete states: an offline interface drops the
payload with no state change. -/
theorem claim_C8_offline_drop_witness :
    processOutgoing ⟨2, 256, 233⟩ ⟨false, 5, []⟩ [1, 2, 3] = ⟨false, 5, []⟩ :=
  (claim_C8_offline_drop ⟨2, 256, 233⟩ ⟨false, 5, []⟩ [1, 2, 3]).1 rfl

/-- Helper: an already-online state leaves the reconnect loop immediately. -/
theorem reconnectPort_online (st : RxState) (h : st.online = true) :
    ∀ l, reconnectPort st l = some (st, 0) := by
  intro l
  cases l with
  | nil => rw [reconnectPort, if_pos h]
  | cons o os => rw [reconnectPort, if_pos h]

/-- Helper: a failed attempt from an offline state is swallowed: the loop
simply continues with the remaining attempts, counting one more sleep. -/
theorem reconnectPort_offline_fail (st : RxState) (h : st.online = false)
    (os : List Bool) :
    reconnectPort st (false :: os) =
      match reconnectPort st os with
      | some (stf, n) => some (stf, n + 1)
      | none => none := by
  rw [reconnectPort, if_neg (by rw [h]; exact Bool.false_ne_true)]
  simp only [Bool.false_eq_true, if_false]

/-- Helper: a successful attempt from an offline state sets the online flag
and ends the loop after that one attempt. -/
theorem reconnectPort_offline_ok (st : RxState) (h : st.online = false)
    (os : List Bool) :
    reconnectPort st (true :: os) = some ({ st with online := true }, 1) := by
  rw [reconnectPort, if_neg (by rw [h]; exact Bool.false_ne_true)]
  simp only [if_true]
  rw [reconnectPort_online _ rfl]

/-- Claim C9: a zero-length read makes `read_loop` clear the online flag and
enter the reconnect loop; the reconnect loop sleeps one fixed backoff
interval per attempt, swallows any number of failed (exception-raising)
attempts without escalating, succeeds on the first successful open no matter
how many failures preceded it (no attempt cap), returns online only then,
and never returns at all while every attempt keeps failing. -/
theorem claim_C9_reconnect (cfg : Config) (st : RxState) (bufs : List (List Nat))
    (outs : List Bool) :
    (readLoop cfg st ([] :: bufs) outs = reconnectPort { st with online := false } outs) ∧
    (∀ n rest, st.online = false →
      reconnectPort st (List.replicate n false ++ true :: rest) =
        some ({ st with online := true }, n + 1)) ∧
    (∀ n, st.online = false → reconnectPort st (List.replicate n false) = none) ∧
    (∀ outcomes stf k, reconnectPort st outcomes = some (stf, k) → stf.online = true) := by
  refine ⟨?_, ?_, ?_, ?_⟩
  · rw [readLoop, if_pos (show ([] : List Nat).length = 0 from rfl)]
  · intro n
    induction n generalizing st with
    | zero =>
      intro rest h
      rw [List.replicate_zero, List.nil_append, reconnectPort_offline_ok st h rest]
    | succ n ih =>
      intro rest h
      rw [List.replicate_succ, List.cons_append, reconnectPort_offline_fail st h _,
        ih st rest h]
  · intro n
    induction n generalizing st with
    | zero =>
      intro h
      rw [List.replicate_zero, reconnectPort, if_neg (by rw [h]; exact Bool.false_ne_true)]
    | succ n ih =>
      intro h
      rw [List.replicate_succ, reconnectPort_offline_fail st h _, ih st h]
  · intro outcomes
    induction outcomes generalizing st with
    | nil =>
      intro stf k h
      rw [reconnectPort] at h
      by_cases ho : st.online = true
      · rw [if_pos ho] at h
        cases h
        exact ho
      · rw [if_neg ho] at h
        cases h
    | cons o os ih =>
      intro stf k h
      by_cases ho : st.online = true
      · rw [reconnectPort, if_pos ho] at h
        cases h
        exact ho
      · have hfalse : st.online = false := by
          revert ho
          cases st.online <;> simp
        cases o with
        | false =>
          rw [reconnectPort_offline_fail st hfalse os] at h
          cases hrec : reconnectPort st os with
          | none => rw [hrec] at h; cases h
          | some r =>
            obtain ⟨r1, r2⟩ := r
            rw [hrec] at h
            have h' : some (r1, r2 + 1) = some (stf, k) := h
            have honl := ih st r1 r2 hrec
            have heq : r1 = stf := by
              injection h' with hh
              exact congrArg Prod.fst hh
            rw [← heq]
            exact honl
        | true =>
          rw [reconnectPort_offline_ok st hfalse os] at h
          cases h
          rfl

/-- Witness for C9 at concrete traces: from an offline state, two failed
attempts followed by a success reconnect after exactly three attempts. -/
theorem claim_C9_reconnect_witness :
    reconnectPort ⟨false, [], [], 0, []⟩ (List.replicate 2 false ++ true :: []) =
      some (⟨true, [], [], 0, []⟩, 3) :=
  (claim_C9_reconnect defaultConfig ⟨false, [], [], 0, []⟩ [] []).2.1 2 [] rfl

/-- Claim C10: the decode loop only runs while the buffer holds strictly
more than four bytes, so a buffer holding exactly the complete four-byte
frame `94 C3 00 00` (length field zero, empty inner message) emits nothing
and is retained; the frame is emitted, as the protobuf-default packet, only
once at least one further byte arrives in a later call. -/
theorem claim_C10_zero_length_frame :
    (∀ buf : List Nat, buf.length ≤ 4 → decodeLoop buf = ([], buf)) ∧
    decodeMeshPackets [] [0x94, 0xC3, 0, 0] = ([], [0x94, 0xC3, 0, 0]) ∧
    (∀ b : Nat, (decodeMeshPackets [0x94, 0xC3, 0, 0] [b]).1 = [defaultMeshPacket]) := by
  refine ⟨fun buf h => decodeLoop_short h, ?_, ?_⟩
  · rw [decodeMeshPackets]
    simp only [List.nil_append]
    rw [show ([0x94, 0xC3, 0, 0] : List Nat).findIdx? (fun x => x == MT_MAGIC_0)
        = some 0 from by decide]
    show decodeLoop (List.drop 0 [0x94, 0xC3, 0, 0]) = _
    rw [List.drop_zero, decodeLoop_short (by norm_num)]
  · intro b
    rw [decodeMeshPackets]
    simp only [List.cons_append, List.nil_append]
    rw [show (0x94 :: 0xC3 :: 0 :: 0 :: [b] : List Nat).findIdx?
        (fun x => x == MT_MAGIC_0) = some 0 from by
      rw [List.findIdx?_cons]
      norm_num [MT_MAGIC_0]]
    show (decodeLoop ((0x94 :: 0xC3 :: 0 :: 0 :: [b] : List Nat).drop 0)).1 = _
    rw [List.drop_zero]
    have hpl0 : ((0x94 :: 0xC3 :: 0 :: 0 :: [b] : List Nat).getD 2 0) <<< 8 |||
        ((0x94 :: 0xC3 :: 0 :: 0 :: [b] : List Nat).getD 3 0) = 0 := by
      show (0 : Nat) <<< 8 ||| 0 = 0
      decide
    have hrest : decodeLoop ((0x94 :: 0xC3 :: 0 :: 0 :: [b] : List Nat).drop (4 + 0))
        = ([], [b]) := by
      show decodeLoop [b] = ([], [b])
      exact decodeLoop_short (by norm_num)
    rw [decodeLoop]
    rw [dif_neg (by simp : ¬(0x94 :: 0xC3 :: 0 :: 0 :: [b] : List Nat).length ≤ 4)]
    rw [dif_pos (⟨rfl, rfl⟩ :
      (0x94 :: 0xC3 :: 0 :: 0 :: [b] : List Nat).getD 0 0 = MT_MAGIC_0 ∧
      (0x94 :: 0xC3 :: 0 :: 0 :: [b] : List Nat).getD 1 0 = MT_MAGIC_1)]
    simp only [hpl0]
    rw [dif_neg (by simp : ¬(0x94 :: 0xC3 :: 0 :: 0 :: [b] : List Nat).length < 4 + 0)]
    rw [hrest]
    rfl

/-- Witness for C10 at a concrete short buffer. -/
theorem claim_C10_zero_length_frame_witness :
    decodeLoop [1, 2] = ([], [1, 2]) :=
  claim_C10_zero_length_frame.1 [1, 2] (by norm_num)

end MeshBridge
